import Mathlib

/-
Verification of the core analysis routines of the general network latency
analyzer (src/latency-analyzer/system-network/icmp/general_latency_analyzer.py).

The Python code is shallowly embedded:
* Python dicts keyed by integers / strings become association lists
  (insertion order preserved, lookup via the first / last matching binding
  exactly as the dict semantics of the original code requires);
* Python floats (all produced by parsing decimal literals) become ℚ;
* Python `None` becomes `Option.none`;
* Python truthiness tests on floats (`if latency:`) become `≠ 0` tests,
  and on optional floats (`if total_rtt:`) become "present and ≠ 0";
* f-string interpolation of a possibly-`None` value becomes `pyOptStr`.
-/

namespace LatencyAnalyzer

/-- Direction of a traced file; the loader only ever tags records with the
strings "OUTGOING" or "INCOMING", modelled as a two-element enum. -/
inductive Direction where
  | OUTGOING
  | INCOMING
deriving DecidableEq, Repr

/-- One parsed session record, the dict produced by
`parse_session_block` (plus the `pair_name` field that
`load_and_parse_data` adds before matching). -/
structure SessionRecord where
  timestamp : String
  direction : Direction
  source_file : String
  src_ip : String
  dst_ip : String
  session_id : Nat
  seq : Nat
  drop : Bool
  drop_reason : Option String
  corrupted_stages : List String
  skb_pointers : List (Nat × String)
  total_rtt : Option ℚ
  max_stage : Option String
  max_latency : ℚ
  path1_latencies : List (String × ℚ)
  path2_latencies : List (String × ℚ)
  pair_name : String
deriving DecidableEq, Repr

/-- `detect_packet_loss` (general_latency_analyzer.py lines 132-147).
The stage-pointer dict is modelled as an association list; `0 in skb_pointers`
and `skb_pointers[0]` together correspond to `lookup`. -/
def detect_packet_loss (skb_pointers : List (Nat × String)) :
    Bool × Option String × List String :=
  match skb_pointers.lookup 0, skb_pointers.lookup 1, skb_pointers.lookup 2 with
  | some stage_0_ptr, some stage_1_ptr, some stage_2_ptr =>
    if stage_0_ptr = stage_1_ptr ∧ stage_1_ptr ≠ stage_2_ptr then
      (true, some "Stage_1_to_2_SKB_Mismatch", ["1->2"])
    else if stage_0_ptr ≠ stage_1_ptr then
      (true, some "Stage_0_to_1_SKB_Mismatch", ["0->1"])
    else
      (false, none, [])
  | _, _, _ => (false, none, [])

/-- `find_max_latency_excluding_corrupted` (lines 179-197).
The two latency dicts are association lists iterated in insertion order;
`if latency` is Python float truthiness, i.e. `latency ≠ 0`. -/
def find_max_latency_excluding_corrupted
    (path1_latencies path2_latencies : List (String × ℚ))
    (corrupted_stages : List String) : Option String × ℚ :=
  let afterPath1 := path1_latencies.foldl
    (fun acc e =>
      if e.2 ≠ 0 ∧ e.1 ∉ corrupted_stages then
        if acc.2 < e.2 then (some ("Path1_" ++ e.1), e.2) else acc
      else acc)
    (none, 0)
  path2_latencies.foldl
    (fun acc e =>
      if e.2 ≠ 0 ∧ acc.2 < e.2 then (some ("Path2_" ++ e.1), e.2) else acc)
    afterPath1

/-- The common update step shared by the two scan loops of
`find_max_latency_excluding_corrupted`: a candidate `e` (already carrying its
`Path1_`/`Path2_` prefixed label) replaces the running maximum only when its
latency is truthy and strictly larger. -/
def gstep (acc : Option String × ℚ) (e : String × ℚ) : Option String × ℚ :=
  if e.2 ≠ 0 ∧ acc.2 < e.2 then (some e.1, e.2) else acc

/-- The ordered candidate list the resolver scans: path-1 entries whose label
is not corrupted (labels prefixed with `Path1_`), followed by every path-2
entry (prefixed with `Path2_`). -/
def candidateEntries (path1_latencies path2_latencies : List (String × ℚ))
    (corrupted_stages : List String) : List (String × ℚ) :=
  (path1_latencies.filter (fun e => decide (e.1 ∉ corrupted_stages))).map
      (fun e => ("Path1_" ++ e.1, e.2))
    ++ path2_latencies.map (fun e => ("Path2_" ++ e.1, e.2))

/-- Python f-string interpolation of a possibly-`None` value:
`f"OUTGOING_{x}"` prints the literal `None` when `x` is `None`. -/
def pyOptStr : Option String → String
  | none => "None"
  | some s => s

/-- The combined-analysis dict built by `analyze_single_session_pair`
(lines 316-384).  Fields that the function always overwrites before
returning (`max_stage`, `max_latency`, `fping_processing_delay`) are modelled
with their final types. -/
structure CombinedAnalysis where
  session_key : String
  pair_name : String
  session_type : String
  outgoing : SessionRecord
  incoming : SessionRecord
  direction : String
  session_id : Nat
  seq : Nat
  drop : Bool
  drop_details : List String
  outgoing_max_stage : Option String
  outgoing_max_latency : ℚ
  incoming_max_stage : Option String
  incoming_max_latency : ℚ
  max_stage : String
  max_latency : ℚ
  physical_network_delay : Option ℚ
  fping_processing_delay : ℚ
  outgoing_path1_latencies : List (String × ℚ)
  outgoing_path2_latencies : List (String × ℚ)
  incoming_path1_latencies : List (String × ℚ)
  incoming_path2_latencies : List (String × ℚ)
  outgoing_total_rtt : Option ℚ
  incoming_total_rtt : Option ℚ
  is_bidirectional : Bool
  available_directions : List String
deriving DecidableEq, Repr

/-- `analyze_single_session_pair` (lines 316-384).  The comparison
`outgoing['max_latency'] >= incoming['max_latency']` is written
`incoming ≤ outgoing`; the Python truthiness test
`if outgoing['total_rtt'] and incoming['total_rtt']` on optional floats
means "present and nonzero". -/
def analyze_single_session_pair (outgoing_session incoming_session : SessionRecord)
    (session_key : String) : CombinedAnalysis where
  session_key := session_key
  pair_name := outgoing_session.pair_name
  session_type := "bidirectional"
  outgoing := outgoing_session
  incoming := incoming_session
  direction := outgoing_session.src_ip ++ "->" ++ outgoing_session.dst_ip
  session_id := outgoing_session.session_id
  seq := outgoing_session.seq
  drop := outgoing_session.drop || incoming_session.drop
  drop_details :=
    (if outgoing_session.drop then
      ["OUTGOING_" ++ pyOptStr outgoing_session.drop_reason] else [])
    ++ (if incoming_session.drop then
      ["INCOMING_" ++ pyOptStr incoming_session.drop_reason] else [])
  outgoing_max_stage := outgoing_session.max_stage
  outgoing_max_latency := outgoing_session.max_latency
  incoming_max_stage := incoming_session.max_stage
  incoming_max_latency := incoming_session.max_latency
  max_stage :=
    if incoming_session.max_latency ≤ outgoing_session.max_latency then
      "OUTGOING_" ++ pyOptStr outgoing_session.max_stage
    else
      "INCOMING_" ++ pyOptStr incoming_session.max_stage
  max_latency :=
    if incoming_session.max_latency ≤ outgoing_session.max_latency then
      outgoing_session.max_latency
    else
      incoming_session.max_latency
  physical_network_delay :=
    match outgoing_session.total_rtt, incoming_session.total_rtt with
    | some a, some b => if a ≠ 0 ∧ b ≠ 0 then some (|a - b| / 2) else none
    | _, _ => none
  fping_processing_delay := 50
  outgoing_path1_latencies := outgoing_session.path1_latencies
  outgoing_path2_latencies := outgoing_session.path2_latencies
  incoming_path1_latencies := incoming_session.path1_latencies
  incoming_path2_latencies := incoming_session.path2_latencies
  outgoing_total_rtt := outgoing_session.total_rtt
  incoming_total_rtt := incoming_session.total_rtt
  is_bidirectional := true
  available_directions := ["OUTGOING", "INCOMING"]

/-- A concrete session record used as a test fixture by the witness and
counterexample theorems. -/
def mkRecord (dir : Direction) (maxStage : Option String) (maxLat : ℚ)
    (rtt : Option ℚ) : SessionRecord where
  timestamp := "2025-01-01 00:00:00.000000"
  direction := dir
  source_file := "trace.log"
  src_ip := "10.0.0.1"
  dst_ip := "10.0.0.2"
  session_id := 7
  seq := 3
  drop := false
  drop_reason := none
  corrupted_stages := []
  skb_pointers := []
  total_rtt := rtt
  max_stage := maxStage
  max_latency := maxLat
  path1_latencies := []
  path2_latencies := []
  pair_name := "10.0.0.1->10.0.0.2"

/-- A concrete session record with chosen pair name and matching key, used
by the matcher witnesses. -/
def mkRecordP (dir : Direction) (pn : String) (sid sq : Nat) : SessionRecord where
  timestamp := "2025-01-01 00:00:00.000000"
  direction := dir
  source_file := "trace.log"
  src_ip := "10.0.0.1"
  dst_ip := "10.0.0.2"
  session_id := sid
  seq := sq
  drop := false
  drop_reason := none
  corrupted_stages := []
  skb_pointers := []
  total_rtt := none
  max_stage := none
  max_latency := 0
  path1_latencies := []
  path2_latencies := []
  pair_name := pn

/-- The matching key `(session['session_id'], session['seq'])` used at
lines 284, 292 and 300. -/
def sessionKey (s : SessionRecord) : Nat × Nat := (s.session_id, s.seq)

/-- The `incoming_lookup` dict built at lines 282-285, modelled by its only
two uses (`key in incoming_lookup`, `incoming_lookup[key]`): since a later
insertion with the same key overwrites an earlier one, lookup returns the
last incoming record with the key. -/
def incomingLookup (incoming_sessions : List SessionRecord) (key : Nat × Nat) :
    Option SessionRecord :=
  incoming_sessions.reverse.find?
    (fun s => decide (s.session_id = key.1 ∧ s.seq = key.2))

/-- `outgoing_sessions` (line 275). -/
def outgoingOf (pair_sessions : List SessionRecord) : List SessionRecord :=
  pair_sessions.filter (fun s => decide (s.direction = Direction.OUTGOING))

/-- `incoming_sessions` (line 276). -/
def incomingOf (pair_sessions : List SessionRecord) : List SessionRecord :=
  pair_sessions.filter (fun s => decide (s.direction = Direction.INCOMING))

/-- `matched_pairs` for one pair-name group (lines 291-296): each outgoing
record whose key is found in the incoming lookup is paired with the found
incoming record, in outgoing order. -/
def matchedPairsOf (pair_sessions : List SessionRecord) :
    List (SessionRecord × SessionRecord) :=
  (outgoingOf pair_sessions).filterMap
    (fun o => (incomingLookup (incomingOf pair_sessions) (sessionKey o)).map
      (fun i => (o, i)))

/-- `outgoing_only` for one pair-name group (lines 291-297). -/
def outgoingOnlyOf (pair_sessions : List SessionRecord) : List SessionRecord :=
  (outgoingOf pair_sessions).filter
    (fun o => (incomingLookup (incomingOf pair_sessions) (sessionKey o)).isNone)

/-- `matched_keys` (line 300). -/
def matchedKeysOf (pair_sessions : List SessionRecord) : List (Nat × Nat) :=
  (matchedPairsOf pair_sessions).map (fun p => sessionKey p.1)

/-- `incoming_only` (lines 301-304). -/
def incomingOnlyOf (pair_sessions : List SessionRecord) : List SessionRecord :=
  (incomingOf pair_sessions).filter
    (fun i => decide (sessionKey i ∉ matchedKeysOf pair_sessions))

/-- The body of the per-pair-name loop of
`match_session_pairs_for_all_nodes` (lines 271-308). -/
def matchGroup (pair_sessions : List SessionRecord) :
    List (SessionRecord × SessionRecord) × List SessionRecord × List SessionRecord :=
  (matchedPairsOf pair_sessions, outgoingOnlyOf pair_sessions,
    incomingOnlyOf pair_sessions)

/-- First-occurrence deduplication with an accumulator of already-seen keys. -/
def dedupFirstAux : List String → List String → List String
  | _, [] => []
  | seen, x :: xs =>
    if x ∈ seen then dedupFirstAux seen xs
    else x :: dedupFirstAux (x :: seen) xs

/-- First-occurrence deduplication: the key iteration order of the
`defaultdict(list)` grouping at lines 267-271. -/
def dedupFirst (l : List String) : List String := dedupFirstAux [] l

/-- One pair-name group: the sessions whose `pair_name` equals `n`, in input
order (the `defaultdict(list)` grouping at lines 267-269). -/
def groupOf (sessions : List SessionRecord) (n : String) : List SessionRecord :=
  sessions.filter (fun s => decide (s.pair_name = n))

/-- `match_session_pairs_for_all_nodes` (lines 258-314): group the records
by pair name (groups in first-occurrence order), match each group
independently, and concatenate the per-group results. -/
def match_session_pairs_for_all_nodes (sessions : List SessionRecord) :
    List (SessionRecord × SessionRecord) × List SessionRecord × List SessionRecord :=
  let names := dedupFirst (sessions.map (fun s => s.pair_name))
  let results := names.map (fun n => matchGroup (groupOf sessions n))
  ((results.map (fun r => r.1)).flatten,
   (results.map (fun r => r.2.1)).flatten,
   (results.map (fun r => r.2.2)).flatten)

/-- The keys of one direction's records inside a list, in order. -/
def dirKeys (d : Direction) (l : List SessionRecord) : List (Nat × Nat) :=
  (l.filter (fun s => decide (s.direction = d))).map sessionKey

/-- The Python regex class `\s`. -/
def isPySpace (c : Char) : Bool :=
  c = ' ' || c = '\t' || c = '\n' || c = '\r' || c = '\x0b' || c = '\x0c'

/-- The regex class `[\d.]`. -/
def isDigitDot (c : Char) : Bool := c.isDigit || c = '.'

/-- The tail `\s*([\d.]+|N/A)\s*us` of the latency-line pattern, matched at
the position right after the colon.  Backtracking is not needed here: the
character classes `\s`, `[\d.]` and the literals are mutually disjoint, so
the greedy matches of the Python engine are exactly these scans. -/
def matchValue (cs : List Char) : Option String :=
  let cs1 := cs.dropWhile isPySpace
  let tok := cs1.takeWhile isDigitDot
  if tok ≠ [] then
    match (cs1.dropWhile isDigitDot).dropWhile isPySpace with
    | 'u' :: 's' :: _ => some (String.mk tok)
    | _ => none
  else
    match cs1 with
    | 'N' :: '/' :: 'A' :: rest =>
      match rest.dropWhile isPySpace with
      | 'u' :: 's' :: _ => some "N/A"
      | _ => none
    | _ => none

/-- The lazy `.*?:` of the latency-line pattern: try each colon from the
left (`.` does not cross a newline) and continue with the value match;
on failure the engine resumes the scan after that colon. -/
def scanColon : List Char → Option String
  | [] => none
  | c :: rest =>
    if c = ':' then
      match matchValue rest with
      | some tok => some tok
      | none => scanColon rest
    else if c = '\n' then none
    else scanColon rest

/-- The head `\[\s*(\d+)->(\d+)\s*\]` of the latency-line pattern, tried at
one start position, followed by the lazy colon scan. -/
def matchBracketAt (cs : List Char) : Option (String × String × String) :=
  match cs with
  | '[' :: r1 =>
    let r2 := r1.dropWhile isPySpace
    let d1 := r2.takeWhile Char.isDigit
    if d1 = [] then none
    else
      match r2.dropWhile Char.isDigit with
      | '-' :: '>' :: r3 =>
        let d2 := r3.takeWhile Char.isDigit
        if d2 = [] then none
        else
          match (r3.dropWhile Char.isDigit).dropWhile isPySpace with
          | ']' :: r5 =>
            (scanColon r5).map (fun tok => (String.mk d1, String.mk d2, tok))
          | _ => none
      | _ => none
  | _ => none

/-- `re.search` of the latency-line pattern (line 161)
`\[\s*(\d+)->(\d+)\s*\].*?:\s*([\d.]+|N/A)\s*us`: the pattern is tried at
each start position from the left and the groups of the first success are
returned. -/
def searchLatencyLine : List Char → Option (String × String × String)
  | [] => none
  | c :: rest =>
    match matchBracketAt (c :: rest) with
    | some r => some r
    | none => searchLatencyLine rest

/-- Numeric value of a digit character. -/
def digitVal (c : Char) : Nat := c.toNat - 48

/-- Reads a digit list as a natural number. -/
def natOfDigits (cs : List Char) : Nat :=
  cs.foldl (fun n c => 10 * n + digitVal c) 0

/-- Python `float()` on the token shapes `[\d.]+` the latency-line pattern
can capture: with at most one dot and at least one digit the decimal value
is returned (represented exactly as a rational); any other shape (e.g.
`"1.2.3"` or `"."`) raises `ValueError`, modelled as `none`. -/
def pyFloatOfToken (s : String) : Option ℚ :=
  let cs := s.data
  if (∀ c ∈ cs, isDigitDot c) ∧ (∃ c ∈ cs, c.isDigit) ∧ cs.count '.' ≤ 1 then
    let ip := cs.takeWhile (fun c => !(c = '.'))
    let fp := (cs.dropWhile (fun c => !(c = '.'))).drop 1
    some ((natOfDigits ip : ℚ) + (natOfDigits fp : ℚ) / (10 : ℚ) ^ fp.length)
  else
    none

/-- Python `str.strip()`. -/
def pyStrip (s : String) : String :=
  String.mk (((s.data.dropWhile isPySpace).reverse.dropWhile isPySpace).reverse)

/-- Python `str.startswith(t)`. -/
def strStartsWith (s t : String) : Bool := t.data.isPrefixOf s.data

/-- Python dict assignment `d[k] = v`: replace in place when the key is
present, else append the binding. -/
def insertAssoc (m : List (String × ℚ)) (k : String) (v : ℚ) :
    List (String × ℚ) :=
  match m with
  | [] => [(k, v)]
  | e :: rest => if e.1 = k then (k, v) :: rest else e :: insertAssoc rest k v

/-- The line loop of `parse_path_latencies` (lines 154-167): the branches in
source order set `in_section`, `break` on the next section header, and store
a numeric latency under its stage key (a literal `N/A` value is skipped, so
its key is never stored).  Returning `some` models a normal exit or `break`;
`none` models the `ValueError` that `float()` would raise on a malformed
numeric token (caught by `parse_session_block`'s handler). -/
def parsePathLoop : List String → Bool → String → List (String × ℚ) →
    Option (List (String × ℚ))
  | [], _, _, latencies => some latencies
  | line :: rest, inSection, sectionName, latencies =>
    if strStartsWith (pyStrip line) sectionName then
      parsePathLoop rest true sectionName latencies
    else if (strStartsWith (pyStrip line) "Path" ||
        strStartsWith (pyStrip line) "Total") && inSection then
      some latencies
    else if inSection && (pyStrip line != "") then
      match searchLatencyLine line.data with
      | some (a, b, tok) =>
        if tok ≠ "N/A" then
          match pyFloatOfToken tok with
          | some v => parsePathLoop rest inSection sectionName
              (insertAssoc latencies (a ++ "->" ++ b) v)
          | none => none
        else parsePathLoop rest inSection sectionName latencies
      | none => parsePathLoop rest inSection sectionName latencies
    else parsePathLoop rest inSection sectionName latencies

/-- `parse_path_latencies` (lines 149-168). -/
def parse_path_latencies (lines : List String) (section_name : String) :
    Option (List (String × ℚ)) :=
  parsePathLoop lines false section_name []

theorem path1_phase_eq_gstep (corr : List String) (p1 : List (String × ℚ)) :
    ∀ acc : Option String × ℚ,
    p1.foldl
      (fun acc e =>
        if e.2 ≠ 0 ∧ e.1 ∉ corr then
          if acc.2 < e.2 then (some ("Path1_" ++ e.1), e.2) else acc
        else acc) acc =
    ((p1.filter (fun e => decide (e.1 ∉ corr))).map
        (fun e => ("Path1_" ++ e.1, e.2))).foldl gstep acc := by
  induction p1 with
  | nil => intro acc; rfl
  | cons e rest ih =>
    intro acc
    by_cases hc : e.1 ∈ corr
    · simp only [List.foldl_cons, List.filter_cons]
      have hcond : ¬ (e.2 ≠ 0 ∧ e.1 ∉ corr) := fun h => h.2 hc
      have hdec : decide (e.1 ∉ corr) = false := by simpa using hc
      rw [if_neg hcond, hdec, if_neg Bool.false_ne_true]
      exact ih acc
    · have hfil : (decide (e.1 ∉ corr)) = true := decide_eq_true hc
      simp only [List.foldl_cons, List.filter_cons]
      rw [hfil, if_pos rfl]
      simp only [List.map_cons, List.foldl_cons]
      have hstep :
          (if e.2 ≠ 0 ∧ e.1 ∉ corr then
            if acc.2 < e.2 then (some ("Path1_" ++ e.1), e.2) else acc
          else acc) = gstep acc ("Path1_" ++ e.1, e.2) := by
        unfold gstep
        by_cases h0 : e.2 = 0
        · have h1 : ¬ (e.2 ≠ 0 ∧ e.1 ∉ corr) := fun h => h.1 h0
          have h2 : ¬ (("Path1_" ++ e.1, e.2).2 ≠ 0 ∧ acc.2 < ("Path1_" ++ e.1, e.2).2) :=
            fun h => h.1 h0
          rw [if_neg h1, if_neg h2]
        · have h1 : e.2 ≠ 0 ∧ e.1 ∉ corr := ⟨h0, hc⟩
          rw [if_pos h1]
          by_cases hlt : acc.2 < e.2
          · rw [if_pos hlt, if_pos ⟨h0, hlt⟩]
          · rw [if_neg hlt, if_neg (fun h => hlt h.2)]
      rw [hstep]
      exact ih _

theorem path2_phase_eq_gstep (p2 : List (String × ℚ)) :
    ∀ acc : Option String × ℚ,
    p2.foldl
      (fun acc e =>
        if e.2 ≠ 0 ∧ acc.2 < e.2 then (some ("Path2_" ++ e.1), e.2) else acc) acc =
    (p2.map (fun e => ("Path2_" ++ e.1, e.2))).foldl gstep acc := by
  induction p2 with
  | nil => intro acc; rfl
  | cons e rest ih =>
    intro acc
    simp only [List.foldl_cons, List.map_cons]
    have hstep :
        (if e.2 ≠ 0 ∧ acc.2 < e.2 then (some ("Path2_" ++ e.1), e.2) else acc) =
          gstep acc ("Path2_" ++ e.1, e.2) := by
      unfold gstep
      rfl
    rw [hstep]
    exact ih _

/-- The resolver is the single left fold of `gstep` over its ordered
candidate list. -/
theorem find_max_eq_gstep_fold (p1 p2 : List (String × ℚ)) (corr : List String) :
    find_max_latency_excluding_corrupted p1 p2 corr =
      (candidateEntries p1 p2 corr).foldl gstep (none, 0) := by
  unfold find_max_latency_excluding_corrupted candidateEntries
  rw [List.foldl_append, path1_phase_eq_gstep corr p1, path2_phase_eq_gstep p2]

theorem gfold_acc_le (l : List (String × ℚ)) :
    ∀ acc : Option String × ℚ, acc.2 ≤ (l.foldl gstep acc).2 := by
  induction l with
  | nil => intro acc; exact le_refl _
  | cons e rest ih =>
    intro acc
    refine le_trans ?_ (ih (gstep acc e))
    unfold gstep
    by_cases h : e.2 ≠ 0 ∧ acc.2 < e.2
    · rw [if_pos h]; exact le_of_lt h.2
    · rw [if_neg h]

theorem gfold_mem_le (l : List (String × ℚ)) :
    ∀ acc : Option String × ℚ, 0 ≤ acc.2 → ∀ e ∈ l, e.2 ≤ (l.foldl gstep acc).2 := by
  induction l with
  | nil => intro acc _ e he; exact absurd he (List.not_mem_nil e)
  | cons x rest ih =>
    intro acc hacc e he
    have hge : 0 ≤ (gstep acc x).2 := by
      unfold gstep
      by_cases h : x.2 ≠ 0 ∧ acc.2 < x.2
      · rw [if_pos h]; exact le_of_lt (lt_of_le_of_lt hacc h.2)
      · rw [if_neg h]; exact hacc
    rcases List.mem_cons.mp he with he | he
    · subst he
      rw [List.foldl_cons]
      refine le_trans ?_ (gfold_acc_le rest (gstep acc e))
      unfold gstep
      by_cases h : e.2 ≠ 0 ∧ acc.2 < e.2
      · rw [if_pos h]
      · rw [if_neg h]
        rcases not_and_or.mp h with h0 | hlt
        · have h00 : e.2 = 0 := not_not.mp h0
          rw [h00]; exact hacc
        · exact not_lt.mp hlt
    · rw [List.foldl_cons]
      exact ih (gstep acc x) hge e he

theorem gfold_none_snd (l : List (String × ℚ)) :
    ∀ acc : Option String × ℚ, (acc.1 = none → acc.2 = 0) →
      ((l.foldl gstep acc).1 = none → (l.foldl gstep acc).2 = 0) := by
  induction l with
  | nil => intro acc h; exact h
  | cons e rest ih =>
    intro acc h
    rw [List.foldl_cons]
    refine ih (gstep acc e) ?_
    unfold gstep
    by_cases hc : e.2 ≠ 0 ∧ acc.2 < e.2
    · rw [if_pos hc]; intro hn; exact absurd hn (by simp)
    · rw [if_neg hc]; exact h

theorem gfold_provenance (l : List (String × ℚ)) :
    ∀ acc : Option String × ℚ,
      l.foldl gstep acc = acc ∨ ∃ e ∈ l, l.foldl gstep acc = (some e.1, e.2) := by
  induction l with
  | nil => intro acc; exact Or.inl rfl
  | cons x rest ih =>
    intro acc
    rw [List.foldl_cons]
    rcases ih (gstep acc x) with h | ⟨e, he, h⟩
    · rw [h]
      unfold gstep
      by_cases hc : x.2 ≠ 0 ∧ acc.2 < x.2
      · rw [if_pos hc]
        exact Or.inr ⟨x, List.mem_cons_self x rest, rfl⟩
      · rw [if_neg hc]; exact Or.inl rfl
    · exact Or.inr ⟨e, List.mem_cons_of_mem x he, h⟩

theorem gfold_stay (l : List (String × ℚ)) :
    ∀ acc : Option String × ℚ, (∀ e ∈ l, e.2 ≤ acc.2) → l.foldl gstep acc = acc := by
  induction l with
  | nil => intro acc _; rfl
  | cons x rest ih =>
    intro acc h
    rw [List.foldl_cons]
    have hx : gstep acc x = acc := by
      unfold gstep
      have : ¬ (x.2 ≠ 0 ∧ acc.2 < x.2) :=
        fun hc => absurd (h x (List.mem_cons_self x rest)) (not_le.mpr hc.2)
      rw [if_neg this]
    rw [hx]
    exact ih acc (fun e he => h e (List.mem_cons_of_mem x he))

theorem searchLine_01 :
    searchLatencyLine "[0->1]: 12.5 us".data = some ("0", "1", "12.5") := by decide

theorem searchLine_12 :
    searchLatencyLine "[1->2]: N/A us".data = some ("1", "2", "N/A") := by decide

theorem searchLine_23 :
    searchLatencyLine "[2->3]: 8.0 us".data = some ("2", "3", "8.0") := by decide

theorem pyFloat_12_5 : pyFloatOfToken "12.5" = some (12.5 : ℚ) := by
  simp only [pyFloatOfToken]
  rw [if_pos (by decide)]
  have e1 : natOfDigits ("12.5".data.takeWhile (fun c => !(c = '.'))) = 12 := by
    decide
  have e2 : natOfDigits (("12.5".data.dropWhile (fun c => !(c = '.'))).drop 1) = 5 := by
    decide
  have e3 : (("12.5".data.dropWhile (fun c => !(c = '.'))).drop 1).length = 1 := by
    decide
  rw [e1, e2, e3]
  norm_num

theorem pyFloat_8_0 : pyFloatOfToken "8.0" = some (8 : ℚ) := by
  simp only [pyFloatOfToken]
  rw [if_pos (by decide)]
  have e1 : natOfDigits ("8.0".data.takeWhile (fun c => !(c = '.'))) = 8 := by
    decide
  have e2 : natOfDigits (("8.0".data.dropWhile (fun c => !(c = '.'))).drop 1) = 0 := by
    decide
  have e3 : (("8.0".data.dropWhile (fun c => !(c = '.'))).drop 1).length = 1 := by
    decide
  rw [e1, e2, e3]
  norm_num

theorem parse_path_latencies_example :
    parse_path_latencies
      ["Path 1 Latencies:", "[0->1]: 12.5 us", "[1->2]: N/A us", "[2->3]: 8.0 us"]
      "Path 1 Latencies" = some [("0->1", (12.5 : ℚ)), ("2->3", 8)] := by
  have h0 : parse_path_latencies
      ["Path 1 Latencies:", "[0->1]: 12.5 us", "[1->2]: N/A us", "[2->3]: 8.0 us"]
      "Path 1 Latencies" =
      some [("0->1", (pyFloatOfToken "12.5").getD 0),
            ("2->3", (pyFloatOfToken "8.0").getD 0)] := by rfl
  rw [h0, pyFloat_12_5, pyFloat_8_0]
  simp only [Option.getD_some]

theorem mem_insertAssoc :
    ∀ (m : List (String × ℚ)) (k2 : String) (v2 : ℚ) (k : String) (v : ℚ),
    (k, v) ∈ insertAssoc m k2 v2 → (k, v) ∈ m ∨ (k = k2 ∧ v = v2) := by
  intro m
  induction m with
  | nil =>
    intro k2 v2 k v h
    simp only [insertAssoc] at h
    rcases List.mem_cons.mp h with h2 | h2
    · exact Or.inr ⟨congrArg Prod.fst h2, congrArg Prod.snd h2⟩
    · exact absurd h2 (List.not_mem_nil _)
  | cons e rest ih =>
    intro k2 v2 k v h
    simp only [insertAssoc] at h
    by_cases he : e.1 = k2
    · rw [if_pos he] at h
      rcases List.mem_cons.mp h with h2 | h2
      · exact Or.inr ⟨congrArg Prod.fst h2, congrArg Prod.snd h2⟩
      · exact Or.inl (List.mem_cons_of_mem e h2)
    · rw [if_neg he] at h
      rcases List.mem_cons.mp h with h2 | h2
      · exact Or.inl (h2 ▸ List.mem_cons_self e rest)
      · rcases ih k2 v2 k v h2 with h3 | h3
        · exact Or.inl (List.mem_cons_of_mem e h3)
        · exact Or.inr h3

theorem parsePathLoop_provenance :
    ∀ (lines : List String) (insec : Bool) (sn : String)
      (acc result : List (String × ℚ)),
    parsePathLoop lines insec sn acc = some result →
    ∀ k v, (k, v) ∈ result →
      (k, v) ∈ acc ∨
      ∃ line ∈ lines, ∃ a b tok,
        searchLatencyLine line.data = some (a, b, tok) ∧ tok ≠ "N/A" ∧
        pyFloatOfToken tok = some v ∧ k = a ++ "->" ++ b := by
  intro lines
  induction lines with
  | nil =>
    intro insec sn acc result h k v hm
    simp only [parsePathLoop, Option.some.injEq] at h
    subst h
    exact Or.inl hm
  | cons line rest ih =>
    intro insec sn acc result h k v hm
    simp only [parsePathLoop] at h
    by_cases c1 : strStartsWith (pyStrip line) sn = true
    · rw [if_pos c1] at h
      rcases ih true sn acc result h k v hm with h2 | ⟨l2, hl2, rest2⟩
      · exact Or.inl h2
      · exact Or.inr ⟨l2, List.mem_cons_of_mem line hl2, rest2⟩
    · rw [if_neg c1] at h
      by_cases c2 : ((strStartsWith (pyStrip line) "Path" ||
          strStartsWith (pyStrip line) "Total") && insec) = true
      · rw [if_pos c2] at h
        injection h with h
        subst h
        exact Or.inl hm
      · rw [if_neg c2] at h
        by_cases c3 : (insec && (pyStrip line != "")) = true
        · rw [if_pos c3] at h
          cases hsr : searchLatencyLine line.data with
          | none =>
            simp only [hsr] at h
            rcases ih insec sn acc result h k v hm with h2 | ⟨l2, hl2, rest2⟩
            · exact Or.inl h2
            · exact Or.inr ⟨l2, List.mem_cons_of_mem line hl2, rest2⟩
          | some abc =>
            obtain ⟨a, b, tok⟩ := abc
            simp only [hsr] at h
            by_cases ct : tok ≠ "N/A"
            · rw [if_pos ct] at h
              cases hf : pyFloatOfToken tok with
              | none =>
                simp only [hf] at h
                exact Option.noConfusion h
              | some v2 =>
                simp only [hf] at h
                rcases ih insec sn _ result h k v hm with h2 | ⟨l2, hl2, rest2⟩
                · rcases mem_insertAssoc acc _ v2 k v h2 with h3 | h3
                  · exact Or.inl h3
                  · refine Or.inr ⟨line, List.mem_cons_self line rest, a, b, tok,
                      hsr, ct, ?_, h3.1⟩
                    rw [h3.2]
                    exact hf
                · exact Or.inr ⟨l2, List.mem_cons_of_mem line hl2, rest2⟩
            · rw [if_neg ct] at h
              rcases ih insec sn acc result h k v hm with h2 | ⟨l2, hl2, rest2⟩
              · exact Or.inl h2
              · exact Or.inr ⟨l2, List.mem_cons_of_mem line hl2, rest2⟩
        · rw [if_neg c3] at h
          rcases ih insec sn acc result h k v hm with h2 | ⟨l2, hl2, rest2⟩
          · exact Or.inl h2
          · exact Or.inr ⟨l2, List.mem_cons_of_mem line hl2, rest2⟩

theorem incomingLookup_eq_some (l : List SessionRecord) (k : Nat × Nat)
    (i : SessionRecord) (h : incomingLookup l k = some i) :
    i ∈ l ∧ i.session_id = k.1 ∧ i.seq = k.2 := by
  unfold incomingLookup at h
  have hm := List.mem_of_find?_eq_some h
  have hp := List.find?_some h
  exact ⟨List.mem_reverse.mp hm, by simpa using hp⟩

theorem mem_matchedPairsOf (g : List SessionRecord) (o i : SessionRecord)
    (h : (o, i) ∈ matchedPairsOf g) :
    o ∈ g ∧ i ∈ g ∧ o.direction = Direction.OUTGOING ∧
      i.direction = Direction.INCOMING ∧
      o.session_id = i.session_id ∧ o.seq = i.seq := by
  unfold matchedPairsOf at h
  rcases List.mem_filterMap.mp h with ⟨o2, ho2, hmap⟩
  cases hl : incomingLookup (incomingOf g) (sessionKey o2) with
  | none => rw [hl] at hmap; exact absurd hmap (by simp)
  | some i2 =>
    rw [hl] at hmap
    simp only [Option.map_some', Option.some.injEq, Prod.mk.injEq] at hmap
    obtain ⟨ho, hi⟩ := hmap
    have ho3 := List.mem_filter.mp ho2
    have hod : o2.direction = Direction.OUTGOING := of_decide_eq_true ho3.2
    have hi3 := incomingLookup_eq_some _ _ _ hl
    have hi4 := List.mem_filter.mp hi3.1
    have hid : i2.direction = Direction.INCOMING := of_decide_eq_true hi4.2
    subst ho; subst hi
    exact ⟨ho3.1, hi4.1, hod, hid, hi3.2.1.symm, hi3.2.2.symm⟩

theorem dedupFirstAux_mem : ∀ (l seen : List String) (a : String),
    a ∈ dedupFirstAux seen l → a ∈ l ∧ a ∉ seen := by
  intro l
  induction l with
  | nil => intro seen a h; exact absurd h (List.not_mem_nil a)
  | cons x xs ih =>
    intro seen a h
    by_cases hx : x ∈ seen
    · simp only [dedupFirstAux, if_pos hx] at h
      have h2 := ih seen a h
      exact ⟨List.mem_cons_of_mem x h2.1, h2.2⟩
    · simp only [dedupFirstAux, if_neg hx] at h
      rcases List.mem_cons.mp h with rfl | h2
      · exact ⟨List.mem_cons_self a xs, hx⟩
      · have h3 := ih (x :: seen) a h2
        exact ⟨List.mem_cons_of_mem x h3.1, fun hs => h3.2 (List.mem_cons_of_mem x hs)⟩

theorem dedupFirstAux_nodup : ∀ (l seen : List String), (dedupFirstAux seen l).Nodup := by
  intro l
  induction l with
  | nil => intro seen; simp [dedupFirstAux]
  | cons x xs ih =>
    intro seen
    by_cases hx : x ∈ seen
    · simp only [dedupFirstAux, if_pos hx]; exact ih seen
    · simp only [dedupFirstAux, if_neg hx]
      rw [List.nodup_cons]
      refine ⟨?_, ih (x :: seen)⟩
      intro hmem
      exact (dedupFirstAux_mem xs (x :: seen) x hmem).2 (List.mem_cons_self x seen)

theorem dedupFirstAux_coverage : ∀ (l seen : List String) (a : String),
    a ∈ l → a ∉ seen → a ∈ dedupFirstAux seen l := by
  intro l
  induction l with
  | nil => intro seen a h; exact absurd h (List.not_mem_nil a)
  | cons x xs ih =>
    intro seen a hmem hseen
    by_cases hx : x ∈ seen
    · simp only [dedupFirstAux, if_pos hx]
      rcases List.mem_cons.mp hmem with rfl | h2
      · exact absurd hx hseen
      · exact ih seen a h2 hseen
    · simp only [dedupFirstAux, if_neg hx]
      rcases List.mem_cons.mp hmem with rfl | h2
      · exact List.mem_cons_self a _
      · by_cases hax : a = x
        · subst hax; exact List.mem_cons_self a _
        · refine List.mem_cons_of_mem x (ih (x :: seen) a h2 ?_)
          intro hs
          rcases List.mem_cons.mp hs with h3 | h3
          · exact hax h3
          · exact hseen h3

theorem dedupFirst_nodup (l : List String) : (dedupFirst l).Nodup :=
  dedupFirstAux_nodup l []

theorem dedupFirst_coverage (l : List String) (a : String) (h : a ∈ l) :
    a ∈ dedupFirst l :=
  dedupFirstAux_coverage l [] a h (List.not_mem_nil a)

theorem countP_add_countP_not {α : Type} (p : α → Bool) :
    ∀ l : List α, l.countP p + l.countP (fun a => !(p a)) = l.length := by
  intro l
  induction l with
  | nil => rfl
  | cons a l2 ih =>
    rw [List.countP_cons, List.countP_cons]
    cases hp : p a <;> simp [hp] <;> omega

theorem countP_mem_eq_length {α : Type} [DecidableEq α] :
    ∀ A : List α, A.Nodup → ∀ K : List α, K.Nodup → (∀ k ∈ K, k ∈ A) →
      A.countP (fun a => decide (a ∈ K)) = K.length := by
  intro A
  induction A with
  | nil =>
    intro _ K _ hsub
    cases K with
    | nil => rfl
    | cons k ks => exact absurd (hsub k (List.mem_cons_self k ks)) (List.not_mem_nil k)
  | cons a A2 ih =>
    intro hA K hK hsub
    rw [List.nodup_cons] at hA
    rw [List.countP_cons]
    by_cases hk : a ∈ K
    · rw [if_pos (decide_eq_true hk)]
      have hcong : A2.countP (fun x => decide (x ∈ K)) =
          A2.countP (fun x => decide (x ∈ K.erase a)) := by
        apply List.countP_congr
        intro x hx
        have hxa : x ≠ a := fun h => hA.1 (h ▸ hx)
        have hiff : (x ∈ K) ↔ (x ∈ K.erase a) :=
          ⟨fun h2 => (hK.mem_erase_iff).mpr ⟨hxa, h2⟩,
           fun h2 => ((hK.mem_erase_iff).mp h2).2⟩
        simpa using hiff
      have hsub2 : ∀ k ∈ K.erase a, k ∈ A2 := by
        intro k hk2
        have h4 := (hK.mem_erase_iff).mp hk2
        rcases List.mem_cons.mp (hsub k h4.2) with h3 | h3
        · exact absurd h3 h4.1
        · exact h3
      rw [hcong, ih hA.2 (K.erase a) (hK.erase a) hsub2,
        List.length_erase_of_mem hk]
      have hpos := List.length_pos_of_mem hk
      omega
    · have hdk : ¬ (decide (a ∈ K) = true) := by simp [hk]
      rw [if_neg hdk]
      have hsub2 : ∀ k ∈ K, k ∈ A2 := by
        intro k hk2
        rcases List.mem_cons.mp (hsub k hk2) with h3 | h3
        · exact absurd (h3 ▸ hk2) hk
        · exact h3
      rw [ih hA.2 K hK hsub2]
      omega

theorem length_dir_filter (l : List SessionRecord) :
    (outgoingOf l).length + (incomingOf l).length = l.length := by
  unfold outgoingOf incomingOf
  induction l with
  | nil => rfl
  | cons s l2 ih =>
    cases hd : s.direction <;> simp [List.filter_cons, hd] <;> omega

theorem length_filterMap_isNone_split {α β γ : Type} (g : α → Option β)
    (h : α → β → γ) :
    ∀ L : List α,
      (L.filterMap (fun a => (g a).map (h a))).length +
        (L.filter (fun a => (g a).isNone)).length = L.length := by
  intro L
  induction L with
  | nil => rfl
  | cons a L2 ih =>
    cases hg : g a <;> simp [List.filterMap_cons, List.filter_cons, hg] <;> omega

theorem matchedKeys_as_filter (inc : List SessionRecord) :
    ∀ L : List SessionRecord,
      ((L.filterMap (fun o => (incomingLookup inc (sessionKey o)).map
          (fun i => (o, i)))).map (fun p => sessionKey p.1)) =
        (L.filter (fun o => (incomingLookup inc (sessionKey o)).isSome)).map
          sessionKey := by
  intro L
  induction L with
  | nil => rfl
  | cons o L2 ih =>
    cases hg : incomingLookup inc (sessionKey o) <;>
      simp [List.filterMap_cons, List.filter_cons, hg, ih]

theorem matchedKeysOf_eq (g : List SessionRecord) :
    matchedKeysOf g =
      ((outgoingOf g).filter
        (fun o => (incomingLookup (incomingOf g) (sessionKey o)).isSome)).map
        sessionKey := by
  unfold matchedKeysOf matchedPairsOf
  exact matchedKeys_as_filter (incomingOf g) (outgoingOf g)

/-- Per-pair-name-group counting: with (sessionId, seq) unique per direction
inside the group, matching partitions the group's records. -/
theorem matchGroup_count (g : List SessionRecord)
    (hOut : (dirKeys Direction.OUTGOING g).Nodup)
    (hIn : (dirKeys Direction.INCOMING g).Nodup) :
    2 * (matchedPairsOf g).length + (outgoingOnlyOf g).length +
      (incomingOnlyOf g).length = g.length := by
  have hOutK : ((outgoingOf g).map sessionKey).Nodup := hOut
  have hInK : ((incomingOf g).map sessionKey).Nodup := hIn
  have hsplit1 : (matchedPairsOf g).length + (outgoingOnlyOf g).length =
      (outgoingOf g).length :=
    length_filterMap_isNone_split
      (fun o => incomingLookup (incomingOf g) (sessionKey o))
      (fun o i => (o, i)) (outgoingOf g)
  have hKnodup : (matchedKeysOf g).Nodup := by
    rw [matchedKeysOf_eq]
    exact hOutK.sublist ((List.filter_sublist _).map sessionKey)
  have hKsub : ∀ k ∈ matchedKeysOf g, k ∈ (incomingOf g).map sessionKey := by
    rw [matchedKeysOf_eq]
    intro k hk
    rcases List.mem_map.mp hk with ⟨o, ho, hko⟩
    have hof := List.mem_filter.mp ho
    rcases Option.isSome_iff_exists.mp hof.2 with ⟨i, hi⟩
    have hsome := incomingLookup_eq_some _ _ _ hi
    have hki : sessionKey i = sessionKey o :=
      Prod.ext hsome.2.1 hsome.2.2
    rw [← hko, ← hki]
    exact List.mem_map_of_mem sessionKey hsome.1
  have hcount : (incomingOf g).countP
      (fun i => decide (sessionKey i ∈ matchedKeysOf g)) =
      (matchedKeysOf g).length := by
    have hc := countP_mem_eq_length ((incomingOf g).map sessionKey) hInK
      (matchedKeysOf g) hKnodup hKsub
    rw [List.countP_map] at hc
    refine Eq.trans (List.countP_congr ?_) hc
    intro x _
    simp only [Function.comp_apply, decide_eq_true_eq]
  have hlenK : (matchedKeysOf g).length = (matchedPairsOf g).length :=
    List.length_map _ _
  have hsplit2 : (matchedPairsOf g).length + (incomingOnlyOf g).length =
      (incomingOf g).length := by
    have h1 : (incomingOnlyOf g).length = (incomingOf g).countP
        (fun i => !(decide (sessionKey i ∈ matchedKeysOf g))) := by
      unfold incomingOnlyOf
      rw [← List.countP_eq_length_filter]
      apply List.countP_congr
      intro x _
      simp [decide_not]
    have h2 := countP_add_countP_not
      (fun i => decide (sessionKey i ∈ matchedKeysOf g)) (incomingOf g)
    omega
  have hdir := length_dir_filter g
  omega

theorem sum_length_groupOf : ∀ (names : List String) (sessions : List SessionRecord),
    names.Nodup → (∀ s ∈ sessions, s.pair_name ∈ names) →
    (names.map (fun n => (groupOf sessions n).length)).sum = sessions.length := by
  intro names
  induction names with
  | nil =>
    intro sessions _ hcov
    cases sessions with
    | nil => rfl
    | cons s ss => exact absurd (hcov s (List.mem_cons_self s ss)) (List.not_mem_nil _)
  | cons n ns ih =>
    intro sessions hnd hcov
    rw [List.map_cons, List.sum_cons]
    rw [List.nodup_cons] at hnd
    have hsplit : (groupOf sessions n).length +
        (sessions.filter (fun s => !(decide (s.pair_name = n)))).length =
        sessions.length := by
      unfold groupOf
      rw [← List.countP_eq_length_filter, ← List.countP_eq_length_filter]
      exact countP_add_countP_not _ sessions
    have hcov2 : ∀ s ∈ sessions.filter (fun s => !(decide (s.pair_name = n))),
        s.pair_name ∈ ns := by
      intro s hs
      have hm := List.mem_filter.mp hs
      have hne : s.pair_name ≠ n := by simpa using hm.2
      rcases List.mem_cons.mp (hcov s hm.1) with h3 | h3
      · exact absurd h3 hne
      · exact h3
    have hgroups : ∀ m ∈ ns, groupOf sessions m =
        groupOf (sessions.filter (fun s => !(decide (s.pair_name = n)))) m := by
      intro m hm
      have hmn : m ≠ n := fun h => hnd.1 (h ▸ hm)
      unfold groupOf
      rw [List.filter_filter]
      apply List.filter_congr
      intro s _
      by_cases hsm : s.pair_name = m
      · simp [hsm, hmn]
      · simp [hsm]
    have hmap : ns.map (fun m => (groupOf sessions m).length) =
        ns.map (fun m =>
          (groupOf (sessions.filter (fun s => !(decide (s.pair_name = n)))) m).length) :=
      List.map_congr_left (fun m hm => by rw [hgroups m hm])
    rw [hmap, ih (sessions.filter (fun s => !(decide (s.pair_name = n)))) hnd.2 hcov2]
    omega

theorem sum_triple (names : List String) (sessions : List SessionRecord)
    (hcount : ∀ n ∈ names,
      2 * (matchedPairsOf (groupOf sessions n)).length +
        (outgoingOnlyOf (groupOf sessions n)).length +
        (incomingOnlyOf (groupOf sessions n)).length = (groupOf sessions n).length) :
    2 * ((names.map (fun n => matchedPairsOf (groupOf sessions n))).flatten).length +
      ((names.map (fun n => outgoingOnlyOf (groupOf sessions n))).flatten).length +
      ((names.map (fun n => incomingOnlyOf (groupOf sessions n))).flatten).length =
      (names.map (fun n => (groupOf sessions n).length)).sum := by
  induction names with
  | nil => rfl
  | cons n ns ih =>
    simp only [List.map_cons, List.flatten_cons, List.length_append, List.sum_cons]
    have h1 := hcount n (List.mem_cons_self n ns)
    have h2 := ih (fun m hm => hcount m (List.mem_cons_of_mem n hm))
    omega

theorem string_append_left_cancel {a b c : String} (h : a ++ b = a ++ c) : b = c := by
  have hd := congrArg String.data h
  rw [String.data_append, String.data_append] at hd
  exact String.ext (List.append_cancel_left hd)

theorem path1_label_ne_path2_label (a b : String) :
    ("Path1_" ++ a) ≠ ("Path2_" ++ b) := by
  intro h
  have hd := congrArg String.data h
  rw [String.data_append, String.data_append] at hd
  have e1 : "Path1_".data = ['P','a','t','h','1','_'] := rfl
  have e2 : "Path2_".data = ['P','a','t','h','2','_'] := rfl
  rw [e1, e2] at hd
  simp at hd

end LatencyAnalyzer

namespace LatencyAnalyzer

/-- Claim C1: the Loss Detector is exactly the reference decision function:
with stages 0, 1, 2 all present, pointer(0) = pointer(1) ≠ pointer(2) gives
(lost, stage-1→2 mismatch reason, corrupted {"1->2"}); otherwise
pointer(0) ≠ pointer(1) gives (lost, stage-0→1 mismatch reason,
corrupted {"0->1"}); otherwise (not lost, no reason, ∅); and with any of
stages 0, 1, 2 missing it reports (not lost, no reason, ∅). -/
theorem C1_loss_detector_decision (ptrs : List (Nat × String)) :
    (∀ p0 p1 p2 : String,
      ptrs.lookup 0 = some p0 → ptrs.lookup 1 = some p1 → ptrs.lookup 2 = some p2 →
      ((p0 = p1 ∧ p1 ≠ p2 →
          detect_packet_loss ptrs = (true, some "Stage_1_to_2_SKB_Mismatch", ["1->2"])) ∧
       (p0 ≠ p1 →
          detect_packet_loss ptrs = (true, some "Stage_0_to_1_SKB_Mismatch", ["0->1"])) ∧
       (p0 = p1 → p1 = p2 →
          detect_packet_loss ptrs = (false, none, [])))) ∧
    (ptrs.lookup 0 = none ∨ ptrs.lookup 1 = none ∨ ptrs.lookup 2 = none →
      detect_packet_loss ptrs = (false, none, [])) := by
  constructor
  · intro p0 p1 p2 h0 h1 h2
    refine ⟨?_, ?_, ?_⟩
    · rintro ⟨heq, hne⟩
      simp [detect_packet_loss, h0, h1, h2, heq, hne]
    · intro hne
      have hcond : ¬ (p0 = p1 ∧ p1 ≠ p2) := fun h => hne h.1
      simp [detect_packet_loss, h0, h1, h2, hcond, hne]
    · intro heq heq2
      simp [detect_packet_loss, h0, h1, h2, heq, heq2]
  · intro h
    cases c0 : ptrs.lookup 0 <;> cases c1 : ptrs.lookup 1 <;> cases c2 : ptrs.lookup 2 <;>
      simp only [detect_packet_loss, c0, c1, c2] <;>
      rcases h with h | h | h <;>
      simp_all

/-- Witness for C1 at the concrete mapping {0 ↦ "0xAA", 1 ↦ "0xAA", 2 ↦ "0xBB"}:
lost with the stage-1→2 mismatch reason. -/
theorem C1_loss_detector_decision_witness :
    detect_packet_loss [(0, "0xAA"), (1, "0xAA"), (2, "0xBB")] =
      (true, some "Stage_1_to_2_SKB_Mismatch", ["1->2"]) :=
  ((C1_loss_detector_decision [(0, "0xAA"), (1, "0xAA"), (2, "0xBB")]).1
    "0xAA" "0xAA" "0xBB" (by decide) (by decide) (by decide)).1 (by decide)

/-- Claim C9: for every stage-pointer mapping containing stages 0, 1, 2 in
which pointer(0) differs from pointer(1), the Loss Detector returns lost
with the stage-0→1 mismatch reason and corrupted set {"0->1"}, whatever
the value at stage 2 is. -/
theorem C9_stage01_mismatch (ptrs : List (Nat × String)) (p0 p1 p2 : String)
    (h0 : ptrs.lookup 0 = some p0) (h1 : ptrs.lookup 1 = some p1)
    (h2 : ptrs.lookup 2 = some p2) (hne : p0 ≠ p1) :
    detect_packet_loss ptrs = (true, some "Stage_0_to_1_SKB_Mismatch", ["0->1"]) := by
  have hcond : ¬ (p0 = p1 ∧ p1 ≠ p2) := fun h => hne h.1
  simp [detect_packet_loss, h0, h1, h2, hcond, hne]

/-- Witness for C9 at the concrete mapping {0 ↦ "0xAA", 1 ↦ "0xCC", 2 ↦ "0xCC"}. -/
theorem C9_stage01_mismatch_witness :
    detect_packet_loss [(0, "0xAA"), (1, "0xCC"), (2, "0xCC")] =
      (true, some "Stage_0_to_1_SKB_Mismatch", ["0->1"]) :=
  C9_stage01_mismatch [(0, "0xAA"), (1, "0xCC"), (2, "0xCC")] "0xAA" "0xCC" "0xCC"
    (by decide) (by decide) (by decide) (by decide)

/-- Claim C2: the Stage-Latency Resolver never returns a path-1 entry whose
stage-transition label is in the corrupted set, even when that entry is the
numerical maximum (first conjunct), and path-2 entries are candidates
unconditionally, regardless of the corrupted set: the result can depend on
the corrupted set only through the path-1 labels, so any two corrupted sets
agreeing on the path-1 labels give the same result (second conjunct). -/
theorem C2_corrupted_path1_never_selected :
    (∀ (p1 p2 : List (String × ℚ)) (corr : List String) (sp : String),
       sp ∈ corr →
       (find_max_latency_excluding_corrupted p1 p2 corr).1 ≠ some ("Path1_" ++ sp)) ∧
    (∀ (p1 p2 : List (String × ℚ)) (corr corr2 : List String),
       (∀ k : String, (∃ q : ℚ, (k, q) ∈ p1) → (k ∈ corr ↔ k ∈ corr2)) →
       find_max_latency_excluding_corrupted p1 p2 corr =
         find_max_latency_excluding_corrupted p1 p2 corr2) := by
  constructor
  · intro p1 p2 corr sp hsp
    rw [find_max_eq_gstep_fold]
    rcases gfold_provenance (candidateEntries p1 p2 corr) (none, 0) with h | ⟨e, he, h⟩
    · rw [h]; simp
    · rw [h]
      simp only [ne_eq, Option.some.injEq]
      intro heq
      rcases List.mem_append.mp he with hmem | hmem
      · rcases List.mem_map.mp hmem with ⟨x, hx, hex⟩
        have hx2 := List.mem_filter.mp hx
        have hnot : x.1 ∉ corr := by simpa using hx2.2
        have he1 : e.1 = "Path1_" ++ x.1 := by rw [← hex]
        have hps : ("Path1_" ++ x.1 : String) = "Path1_" ++ sp := by rw [← he1, heq]
        have hxsp := string_append_left_cancel hps
        exact hnot (hxsp ▸ hsp)
      · rcases List.mem_map.mp hmem with ⟨x, hx, hex⟩
        have he1 : e.1 = "Path2_" ++ x.1 := by rw [← hex]
        have hps : ("Path2_" ++ x.1 : String) = "Path1_" ++ sp := by rw [← he1, heq]
        exact path1_label_ne_path2_label sp x.1 hps.symm
  · intro p1 p2 corr corr2 hcc
    rw [find_max_eq_gstep_fold, find_max_eq_gstep_fold]
    have hce : candidateEntries p1 p2 corr = candidateEntries p1 p2 corr2 := by
      unfold candidateEntries
      congr 2
      apply List.filter_congr
      intro e he
      have hiff := hcc e.1 ⟨e.2, by rw [Prod.mk.eta]; exact he⟩
      simp [hiff]
    rw [hce]

/-- Witness for C2: with path-1 = {"1->2" ↦ 100}, path-2 empty, corrupted
{"1->2"}, the numerically largest (and only) entry is corrupted and is not
returned. -/
theorem C2_corrupted_path1_never_selected_witness :
    (find_max_latency_excluding_corrupted [("1->2", 100)] [] ["1->2"]).1 ≠
      some ("Path1_" ++ "1->2") :=
  C2_corrupted_path1_never_selected.1 [("1->2", 100)] [] ["1->2"] "1->2" (by decide)

/-- Claim C7 counterexample: with path-1 empty and the single path-2 entry
("0->1", 0), a candidate exists (the candidate list is nonempty), yet the
resolver returns the null stage with latency 0, because the Python float
truthiness test `if latency` skips a zero-valued candidate.  This refutes
"whenever at least one candidate exists, it returns that candidate set's
largest latency with a non-null stage label" as stated. -/
theorem C7_counterexample :
    candidateEntries [] [("0->1", 0)] [] ≠ [] ∧
    find_max_latency_excluding_corrupted [] [("0->1", 0)] [] = (none, 0) := by
  constructor
  · decide
  · decide

/-- Claim C7 amended: the resolver returns a null stage exactly when no
candidate (non-corrupted path-1 entry or path-2 entry) has positive latency;
a null stage always comes with latency 0; and whenever some candidate has
positive latency the result is one of the candidates (hence a non-null,
path-prefixed stage label) carrying the largest candidate latency. -/
theorem C7_amended_null_iff_no_positive_candidate
    (p1 p2 : List (String × ℚ)) (corr : List String) :
    ((find_max_latency_excluding_corrupted p1 p2 corr).1 = none ↔
       ∀ e ∈ candidateEntries p1 p2 corr, e.2 ≤ 0) ∧
    ((find_max_latency_excluding_corrupted p1 p2 corr).1 = none →
       (find_max_latency_excluding_corrupted p1 p2 corr).2 = 0) ∧
    ((∃ e ∈ candidateEntries p1 p2 corr, 0 < e.2) →
       (∃ e ∈ candidateEntries p1 p2 corr,
          find_max_latency_excluding_corrupted p1 p2 corr = (some e.1, e.2)) ∧
       ∀ e ∈ candidateEntries p1 p2 corr,
          e.2 ≤ (find_max_latency_excluding_corrupted p1 p2 corr).2) := by
  rw [find_max_eq_gstep_fold]
  refine ⟨⟨?_, ?_⟩, ?_, ?_⟩
  · intro hn e he
    have h2 : ((candidateEntries p1 p2 corr).foldl gstep (none, 0)).2 = 0 :=
      gfold_none_snd (candidateEntries p1 p2 corr) (none, 0) (fun _ => rfl) hn
    have hle := gfold_mem_le (candidateEntries p1 p2 corr) (none, 0) (le_refl 0) e he
    rw [h2] at hle
    exact hle
  · intro hall
    have hs : (candidateEntries p1 p2 corr).foldl gstep (none, 0) = (none, 0) :=
      gfold_stay (candidateEntries p1 p2 corr) (none, 0) (fun e he => hall e he)
    rw [hs]
  · intro hn
    exact gfold_none_snd (candidateEntries p1 p2 corr) (none, 0) (fun _ => rfl) hn
  · rintro ⟨e, he, hpos⟩
    constructor
    · rcases gfold_provenance (candidateEntries p1 p2 corr) (none, 0) with h | ⟨x, hx, h⟩
      · exfalso
        have hle := gfold_mem_le (candidateEntries p1 p2 corr) (none, 0) (le_refl 0) e he
        rw [h] at hle
        exact absurd (lt_of_lt_of_le hpos hle) (lt_irrefl 0)
      · exact ⟨x, hx, h⟩
    · exact gfold_mem_le (candidateEntries p1 p2 corr) (none, 0) (le_refl 0)

/-- Witness for C7 (amended) with the single positive candidate
path-1 = {"0->1" ↦ 3}: the result is that candidate and bounds all
candidate latencies. -/
theorem C7_amended_witness :
    (∃ e ∈ candidateEntries [("0->1", 3)] [] [],
       find_max_latency_excluding_corrupted [("0->1", 3)] [] [] = (some e.1, e.2)) ∧
    ∀ e ∈ candidateEntries [("0->1", 3)] [] [],
       e.2 ≤ (find_max_latency_excluding_corrupted [("0->1", 3)] [] []).2 :=
  (C7_amended_null_iff_no_positive_candidate [("0->1", 3)] [] []).2.2 (by decide)

/-- Claim C8 counterexample: with the two path-2 candidates ("a", 0) and
("b", 0), several candidates share the maximal latency 0, but the first-seen
one is not returned with its "Path2_"-prefixed label — the resolver returns
the null stage instead, because a zero latency never passes the Python
truthiness test.  This refutes the unconditional first-seen-tie-break claim. -/
theorem C8_counterexample :
    (find_max_latency_excluding_corrupted [] [("a", 0), ("b", 0)] []).1 ≠
      some ("Path2_" ++ "a") ∧
    find_max_latency_excluding_corrupted [] [("a", 0), ("b", 0)] [] = (none, 0) := by
  constructor
  · decide
  · decide

/-- Claim C8 amended: candidates are scanned path-1 first then path-2, each
in mapping order, and a later candidate replaces the running maximum only on
a strict improvement; hence whenever the first-seen maximal candidate has
positive latency it is returned with its "Path1_"/"Path2_" prefixed label
(first conjunct); and the result is always either (null, 0) or one of the
scanned path candidates, so the total round-trip value is never a candidate
(second conjunct). -/
theorem C8_amended_first_seen_max :
    (∀ (p1 p2 : List (String × ℚ)) (corr : List String)
       (l1 l2 : List (String × ℚ)) (e : String × ℚ),
       candidateEntries p1 p2 corr = l1 ++ e :: l2 → 0 < e.2 →
       (∀ x ∈ l1, x.2 < e.2) → (∀ x ∈ l2, x.2 ≤ e.2) →
       find_max_latency_excluding_corrupted p1 p2 corr = (some e.1, e.2)) ∧
    (∀ (p1 p2 : List (String × ℚ)) (corr : List String),
       find_max_latency_excluding_corrupted p1 p2 corr = (none, 0) ∨
       ∃ x ∈ candidateEntries p1 p2 corr,
         find_max_latency_excluding_corrupted p1 p2 corr = (some x.1, x.2)) := by
  constructor
  · intro p1 p2 corr l1 l2 e hsplit hpos h1 h2
    rw [find_max_eq_gstep_fold, hsplit, List.foldl_append, List.foldl_cons]
    have hacc1 : (l1.foldl gstep (none, 0)).2 < e.2 := by
      rcases gfold_provenance l1 (none, 0) with h | ⟨x, hx, h⟩
      · rw [h]; exact hpos
      · rw [h]; exact h1 x hx
    have hstep : gstep (l1.foldl gstep (none, 0)) e = (some e.1, e.2) := by
      unfold gstep
      rw [if_pos ⟨ne_of_gt hpos, hacc1⟩]
    rw [hstep]
    exact gfold_stay l2 (some e.1, e.2) (fun x hx => h2 x hx)
  · intro p1 p2 corr
    rw [find_max_eq_gstep_fold]
    rcases gfold_provenance (candidateEntries p1 p2 corr) (none, 0) with h | ⟨x, hx, h⟩
    · exact Or.inl h
    · exact Or.inr ⟨x, hx, h⟩

/-- Witness for C8 (amended): path-1 = {"0->1" ↦ 5} and path-2 = {"0->1" ↦ 5}
tie at the maximum; the first-seen path-1 candidate wins. -/
theorem C8_amended_first_seen_max_witness :
    find_max_latency_excluding_corrupted [("0->1", 5)] [("0->1", 5)] [] =
      (some ("Path1_" ++ "0->1"), 5) :=
  C8_amended_first_seen_max.1 [("0->1", 5)] [("0->1", 5)] [] []
    [("Path2_" ++ "0->1", 5)] ("Path1_" ++ "0->1", 5)
    (by decide) (by decide) (by decide) (by decide)

/-- Claim C3: the Bidirectional Analyzer's overall dominant stage and latency
are those of the direction with the larger per-direction maxLatency, with the
stage label tagged by that direction; on equal values the outgoing direction
is chosen (the comparison is outgoing ≥ incoming, evaluated outgoing-first). -/
theorem C3_overall_max_direction (o i : SessionRecord) (k : String) :
    (i.max_latency ≤ o.max_latency →
       (analyze_single_session_pair o i k).max_stage =
           "OUTGOING_" ++ pyOptStr o.max_stage ∧
       (analyze_single_session_pair o i k).max_latency = o.max_latency) ∧
    (o.max_latency < i.max_latency →
       (analyze_single_session_pair o i k).max_stage =
           "INCOMING_" ++ pyOptStr i.max_stage ∧
       (analyze_single_session_pair o i k).max_latency = i.max_latency) := by
  constructor
  · intro h
    constructor <;> simp [analyze_single_session_pair, h]
  · intro h
    have hn : ¬ i.max_latency ≤ o.max_latency := not_le.mpr h
    constructor <;> simp [analyze_single_session_pair, hn]

/-- Witness for C3, the example from the claim: outgoing maxLatency 120
paired with incoming maxLatency 340 yields max_stage tagged INCOMING and
max_latency 340. -/
theorem C3_overall_max_direction_witness :
    (analyze_single_session_pair
        (mkRecord Direction.OUTGOING (some "Path1_0->1") 120 (some 500))
        (mkRecord Direction.INCOMING (some "Path2_2->3") 340 (some 400))
        "pair_7_3").max_stage = "INCOMING_" ++ pyOptStr (some "Path2_2->3") ∧
    (analyze_single_session_pair
        (mkRecord Direction.OUTGOING (some "Path1_0->1") 120 (some 500))
        (mkRecord Direction.INCOMING (some "Path2_2->3") 340 (some 400))
        "pair_7_3").max_latency = 340 :=
  (C3_overall_max_direction
      (mkRecord Direction.OUTGOING (some "Path1_0->1") 120 (some 500))
      (mkRecord Direction.INCOMING (some "Path2_2->3") 340 (some 400))
      "pair_7_3").2 (by decide)

/-- Claim C6 counterexample: outgoing total RTT present with value 0 and
incoming total RTT present with value 10 — both total-RTT values are present,
so the claim demands the delay |0 - 10| / 2 = 5 — but the code's Python
truthiness test `if total_rtt and ...` treats the present-but-zero value as
absent and leaves the estimated one-way physical delay absent. -/
theorem C6_counterexample :
    (mkRecord Direction.OUTGOING none 0 (some 0)).total_rtt = some 0 ∧
    (mkRecord Direction.INCOMING none 0 (some 10)).total_rtt = some 10 ∧
    (analyze_single_session_pair (mkRecord Direction.OUTGOING none 0 (some 0))
        (mkRecord Direction.INCOMING none 0 (some 10))
        "pair_7_3").physical_network_delay ≠ some (|(0 : ℚ) - 10| / 2) ∧
    (analyze_single_session_pair (mkRecord Direction.OUTGOING none 0 (some 0))
        (mkRecord Direction.INCOMING none 0 (some 10))
        "pair_7_3").physical_network_delay = none := by
  refine ⟨rfl, rfl, ?_, ?_⟩
  · decide
  · decide

/-- Claim C6 amended: the estimated one-way physical network delay equals
half the absolute difference of the two directions' total round-trip values
whenever both are present with nonzero (truthy) values, and is absent
whenever either value is absent or zero. -/
theorem C6_amended_physical_delay (o i : SessionRecord) (k : String) :
    (∀ a b : ℚ, o.total_rtt = some a → i.total_rtt = some b → a ≠ 0 → b ≠ 0 →
       (analyze_single_session_pair o i k).physical_network_delay =
         some (|a - b| / 2)) ∧
    ((o.total_rtt = none ∨ i.total_rtt = none ∨
        o.total_rtt = some 0 ∨ i.total_rtt = some 0) →
       (analyze_single_session_pair o i k).physical_network_delay = none) := by
  constructor
  · intro a b ha hb ha0 hb0
    simp [analyze_single_session_pair, ha, hb, ha0, hb0]
  · intro h
    rcases h with h | h | h | h <;>
      cases co : o.total_rtt <;> cases ci : i.total_rtt <;>
        simp_all [analyze_single_session_pair]

/-- Claim C4: every MatchedPair emitted by the Session Matcher consists of
one OUTGOING and one INCOMING record with equal pair_name, equal sessionId
and equal seq; in particular two records with identical (sessionId, seq)
keys but different pair_name values are never joined. -/
theorem C4_matcher_never_crosses_groups (sessions : List SessionRecord)
    (o i : SessionRecord)
    (h : (o, i) ∈ (match_session_pairs_for_all_nodes sessions).1) :
    o.direction = Direction.OUTGOING ∧ i.direction = Direction.INCOMING ∧
    o.pair_name = i.pair_name ∧ o.session_id = i.session_id ∧ o.seq = i.seq := by
  unfold match_session_pairs_for_all_nodes at h
  simp only [List.map_map, List.mem_flatten, List.mem_map, Function.comp] at h
  obtain ⟨l, ⟨n, hn, hl⟩, hmem⟩ := h
  subst hl
  have hpair := mem_matchedPairsOf (groupOf sessions n) o i hmem
  have ho := List.mem_filter.mp hpair.1
  have hi := List.mem_filter.mp hpair.2.1
  have hon : o.pair_name = n := of_decide_eq_true ho.2
  have hin : i.pair_name = n := of_decide_eq_true hi.2
  exact ⟨hpair.2.2.1, hpair.2.2.2.1, hon.trans hin.symm,
    hpair.2.2.2.2.1, hpair.2.2.2.2.2⟩

/-- Witness for C4 at the concrete two-record input forming one matched
pair: the pair members have the asserted directions and equal pair name,
session id and sequence number. -/
theorem C4_matcher_never_crosses_groups_witness :
    (mkRecord Direction.OUTGOING none 0 none).direction = Direction.OUTGOING ∧
    (mkRecord Direction.INCOMING none 0 none).direction = Direction.INCOMING ∧
    (mkRecord Direction.OUTGOING none 0 none).pair_name =
      (mkRecord Direction.INCOMING none 0 none).pair_name ∧
    (mkRecord Direction.OUTGOING none 0 none).session_id =
      (mkRecord Direction.INCOMING none 0 none).session_id ∧
    (mkRecord Direction.OUTGOING none 0 none).seq =
      (mkRecord Direction.INCOMING none 0 none).seq :=
  C4_matcher_never_crosses_groups
    [mkRecord Direction.OUTGOING none 0 none, mkRecord Direction.INCOMING none 0 none]
    (mkRecord Direction.OUTGOING none 0 none)
    (mkRecord Direction.INCOMING none 0 none)
    (by decide)

/-- Claim C10 (implicit): when the (sessionId, seq) key is unique per
direction within each pair-name group, the Session Matcher partitions the
input exactly: twice the number of matched pairs plus the number of
outgoing-only records plus the number of incoming-only records equals the
number of input records. -/
theorem C10_matcher_partitions_input (sessions : List SessionRecord)
    (h : ∀ n ∈ dedupFirst (sessions.map (fun s => s.pair_name)),
       (dirKeys Direction.OUTGOING (groupOf sessions n)).Nodup ∧
       (dirKeys Direction.INCOMING (groupOf sessions n)).Nodup) :
    2 * (match_session_pairs_for_all_nodes sessions).1.length +
      (match_session_pairs_for_all_nodes sessions).2.1.length +
      (match_session_pairs_for_all_nodes sessions).2.2.length = sessions.length := by
  unfold match_session_pairs_for_all_nodes
  simp only [List.map_map, Function.comp_def, matchGroup]
  have hsum := sum_triple (dedupFirst (sessions.map (fun s => s.pair_name))) sessions
    (fun n hn => matchGroup_count (groupOf sessions n) (h n hn).1 (h n hn).2)
  have hlen := sum_length_groupOf (dedupFirst (sessions.map (fun s => s.pair_name)))
    sessions (dedupFirst_nodup _)
    (fun s hs => dedupFirst_coverage _ _ (List.mem_map_of_mem _ hs))
  omega

/-- Witness for C10 on three records: a matched pair in group "A" plus an
outgoing-only record in group "B" sharing the same (sessionId, seq) key;
2·1 + 1 + 0 = 3. -/
theorem C10_matcher_partitions_input_witness :
    2 * (match_session_pairs_for_all_nodes
        [mkRecordP Direction.OUTGOING "A" 1 1, mkRecordP Direction.INCOMING "A" 1 1,
         mkRecordP Direction.OUTGOING "B" 1 1]).1.length +
      (match_session_pairs_for_all_nodes
        [mkRecordP Direction.OUTGOING "A" 1 1, mkRecordP Direction.INCOMING "A" 1 1,
         mkRecordP Direction.OUTGOING "B" 1 1]).2.1.length +
      (match_session_pairs_for_all_nodes
        [mkRecordP Direction.OUTGOING "A" 1 1, mkRecordP Direction.INCOMING "A" 1 1,
         mkRecordP Direction.OUTGOING "B" 1 1]).2.2.length = 3 :=
  C10_matcher_partitions_input
    [mkRecordP Direction.OUTGOING "A" 1 1, mkRecordP Direction.INCOMING "A" 1 1,
     mkRecordP Direction.OUTGOING "B" 1 1]
    (by decide)

/-- Claim C5: a latency-section line whose value is the literal `N/A`
placeholder contributes nothing to the resulting latency mapping: every
binding of the mapping comes from a line whose captured value is a numeric
token (never `N/A`, and never a substituted 0), and the example lines
`[0->1]: 12.5 us`, `[1->2]: N/A us`, `[2->3]: 8.0 us` under their section
header parse to exactly {"0->1" ↦ 12.5, "2->3" ↦ 8.0}, with no "1->2" key. -/
theorem C5_na_value_omitted :
    (parse_path_latencies
        ["Path 1 Latencies:", "[0->1]: 12.5 us", "[1->2]: N/A us", "[2->3]: 8.0 us"]
        "Path 1 Latencies" = some [("0->1", (12.5 : ℚ)), ("2->3", 8)]) ∧
    (∀ (lines : List String) (sn : String) (result : List (String × ℚ)),
       parse_path_latencies lines sn = some result →
       ∀ k v, (k, v) ∈ result →
         ∃ line ∈ lines, ∃ a b tok,
           searchLatencyLine line.data = some (a, b, tok) ∧ tok ≠ "N/A" ∧
           pyFloatOfToken tok = some v ∧ k = a ++ "->" ++ b) := by
  constructor
  · exact parse_path_latencies_example
  · intro lines sn result h k v hm
    rcases parsePathLoop_provenance lines false sn [] result h k v hm with h2 | h2
    · exact absurd h2 (List.not_mem_nil _)
    · exact h2

/-- Witness for C5: the entry ("0->1", 12.5) of the example result mapping
originates from a line whose captured value token is the numeric "12.5". -/
theorem C5_na_value_omitted_witness :
    ∃ line ∈ ["Path 1 Latencies:", "[0->1]: 12.5 us", "[1->2]: N/A us",
        "[2->3]: 8.0 us"],
      ∃ a b tok,
        searchLatencyLine line.data = some (a, b, tok) ∧ tok ≠ "N/A" ∧
        pyFloatOfToken tok = some (12.5 : ℚ) ∧ "0->1" = a ++ "->" ++ b :=
  C5_na_value_omitted.2
    ["Path 1 Latencies:", "[0->1]: 12.5 us", "[1->2]: N/A us", "[2->3]: 8.0 us"]
    "Path 1 Latencies" [("0->1", (12.5 : ℚ)), ("2->3", 8)]
    C5_na_value_omitted.1 "0->1" (12.5 : ℚ) (List.mem_cons_self _ _)

/-- Witness for C6 (amended): outgoing total RTT 500 and incoming total RTT
400 give the estimated one-way physical delay |500 - 400| / 2. -/
theorem C6_amended_physical_delay_witness :
    (analyze_single_session_pair (mkRecord Direction.OUTGOING none 0 (some 500))
        (mkRecord Direction.INCOMING none 0 (some 400))
        "pair_7_3").physical_network_delay = some (|(500 : ℚ) - 400| / 2) :=
  (C6_amended_physical_delay (mkRecord Direction.OUTGOING none 0 (some 500))
      (mkRecord Direction.INCOMING none 0 (some 400)) "pair_7_3").1
    500 400 rfl rfl (by decide) (by decide)

end LatencyAnalyzer
